import Mathlib

/-!
Shallow embedding of the migration core of OmniProDB (src/migrations.rs)
and proofs about it.

The embedding models:
  - the in-memory registry (MigrationManager.migrations, a Vec<Migration>)
    as a List Migration;
  - the durable applied-migration record set kept by the database as a
    List AppliedRecord inside DbState, together with a clock that stands
    for the time::now() timestamps;
  - the database query executor and its possible failures as an Env of
    Boolean oracles, one per call site (migration scripts executed
    verbatim, the CREATE / DELETE / SELECT record statements);
  - the observable behaviour of one engine call as a RunOutcome: the
    ordered trace of events (metric emissions, script executions, record
    writes and deletes, version queries), the resulting durable state,
    and the error, if any.

Every definition is translated from src/migrations.rs; the constant query
strings are the ones the source sends to the database.
-/

namespace OmniProDB

/-- Migration (src/migrations.rs, struct Migration): a versioned reversible
unit of schema change.  The chrono timestamp is modelled as a Nat tick. -/
structure Migration where
  version : Int
  name : String
  description : String
  up : String
  down : String
  applied_at : Option Nat
deriving Repr, DecidableEq

/-- One durable applied-migration record, as written by the CREATE statement
in apply_migration: version, name, description and the applied_at time. -/
structure AppliedRecord where
  version : Int
  name : String
  description : String
  applied_at : Nat
deriving Repr, DecidableEq

/-- The durable database state the engine manipulates: the set (list) of
applied-migration records, plus a clock standing for time::now(). -/
structure DbState where
  records : List AppliedRecord
  clock : Nat
deriving Repr, DecidableEq

/-- Observable events of one engine call, in order: a telemetry metric
(record_metric with its name and string tags; the constant f64 value 1.0 is
elided), the execution attempt of an up or down script, a successful record
write, a successful record delete, and the current-version query. -/
inductive Event where
  | metric (name : String) (tags : List (String × String))
  | execScript (q : String)
  | createRecord (r : AppliedRecord)
  | deleteVersion (v : Int)
  | selectVersion
deriving Repr, DecidableEq

/-- MigrationError (src/migrations.rs): DatabaseError wraps the database
error display text, MigrationFailed wraps the formatted failure message. -/
inductive MigrationError where
  | DatabaseError (msg : String)
  | MigrationFailed (msg : String)
deriving Repr, DecidableEq

/-- The record-write statement sent by apply_migration. -/
def createQuery : String :=
  "CREATE migration SET version = $version, name = $name, description = $description, applied_at = time::now()"

/-- The record-delete statement sent by rollback_migration. -/
def deleteQuery : String :=
  "DELETE FROM migration WHERE version = $version"

/-- The current-version statement sent by get_current_version. -/
def selectQuery : String :=
  "SELECT version FROM migration ORDER BY version DESC LIMIT 1"

/-- Failure oracle for the external database executor: whether a migration
script executes successfully, whether the record write / delete bound to a
given version succeeds, whether the current-version query succeeds, and the
display text of the database error for a failing statement. -/
structure Env where
  queryOk : String → Bool
  createOk : Int → Bool
  deleteOk : Int → Bool
  selectOk : Bool
  errMsg : String → String

/-- Outcome of one engine call: the ordered event trace, the durable state
after the call (the database persists whatever happened before a failure),
and the error if the call failed. -/
structure RunOutcome where
  events : List Event
  db : DbState
  err : Option MigrationError
deriving Repr, DecidableEq

/-- Maximum version among a list of records, none when empty: the meaning of
the SELECT version FROM migration ORDER BY version DESC LIMIT 1 statement
read back as an Option. -/
def maxRecordVersion : List AppliedRecord → Option Int
  | [] => none
  | r :: rs =>
    match maxRecordVersion rs with
    | none => some r.version
    | some v => some (max r.version v)

/-- The integer get_current_version produces from a record set:
the maximum version, with unwrap_or(0) on the empty set. -/
def currentOf (rs : List AppliedRecord) : Int :=
  (maxRecordVersion rs).getD 0

/-- Current version of a durable state. -/
def currentVersionPure (db : DbState) : Int :=
  currentOf db.records

/-- MigrationManager::get_current_version: runs the select statement and
unwraps the optional result with default 0; a failing statement (or a failing
take) surfaces as DatabaseError. -/
def get_current_version (env : Env) (db : DbState) :
    List Event × Except MigrationError Int :=
  if env.selectOk then
    ([Event.selectVersion], Except.ok (currentVersionPure db))
  else
    ([Event.selectVersion], Except.error (MigrationError.DatabaseError (env.errMsg selectQuery)))

/-- The record apply_migration writes for migration m at time t. -/
def appliedRecordOf (m : Migration) (t : Nat) : AppliedRecord :=
  ⟨m.version, m.name, m.description, t⟩

/-- MigrationManager::apply_migration: emits the migration_apply_details
metric tagged with version and name, executes m.up, then writes the
applied-migration record; script failure is MigrationFailed with no record
write, record-write failure after a successful script is DatabaseError. -/
def apply_migration (env : Env) (db : DbState) (m : Migration) : RunOutcome :=
  let ev0 : Event := Event.metric "migration_apply_details"
    [("version", toString m.version), ("name", m.name)]
  if env.queryOk m.up then
    if env.createOk m.version then
      let r := appliedRecordOf m db.clock
      ⟨[ev0, Event.execScript m.up, Event.createRecord r],
        ⟨db.records ++ [r], db.clock + 1⟩, none⟩
    else
      ⟨[ev0, Event.execScript m.up], db,
        some (MigrationError.DatabaseError (env.errMsg createQuery))⟩
  else
    ⟨[ev0, Event.execScript m.up], db,
      some (MigrationError.MigrationFailed ("Failed to apply migration: " ++ env.errMsg m.up))⟩

/-- MigrationManager::rollback_migration: emits the
migration_rollback_single metric tagged with version and name, executes
m.down, then deletes the applied-migration records with that version;
script failure is MigrationFailed with no delete, delete failure after a
successful script is DatabaseError. -/
def rollback_migration (env : Env) (db : DbState) (m : Migration) : RunOutcome :=
  let ev0 : Event := Event.metric "migration_rollback_single"
    [("version", toString m.version), ("name", m.name)]
  if env.queryOk m.down then
    if env.deleteOk m.version then
      ⟨[ev0, Event.execScript m.down, Event.deleteVersion m.version],
        ⟨db.records.filter (fun r => r.version != m.version), db.clock⟩, none⟩
    else
      ⟨[ev0, Event.execScript m.down], db,
        some (MigrationError.DatabaseError (env.errMsg deleteQuery))⟩
  else
    ⟨[ev0, Event.execScript m.down], db,
      some (MigrationError.MigrationFailed ("Failed to rollback migration: " ++ env.errMsg m.down))⟩

/-- The sequential for-loop of run_pending_migrations over a work list:
apply each migration in order, stopping at (and returning) the first
error, keeping the durable state reached so far. -/
def applyList (env : Env) (db : DbState) : List Migration → RunOutcome
  | [] => ⟨[], db, none⟩
  | m :: ms =>
    let o := apply_migration env db m
    match o.err with
    | some e => ⟨o.events, o.db, some e⟩
    | none =>
      let o2 := applyList env o.db ms
      ⟨o.events ++ o2.events, o2.db, o2.err⟩

/-- The sequential for-loop of rollback over a work list. -/
def rollbackList (env : Env) (db : DbState) : List Migration → RunOutcome
  | [] => ⟨[], db, none⟩
  | m :: ms =>
    let o := rollback_migration env db m
    match o.err with
    | some e => ⟨o.events, o.db, some e⟩
    | none =>
      let o2 := rollbackList env o.db ms
      ⟨o.events ++ o2.events, o2.db, o2.err⟩

/-- The forward work list of run_pending_migrations: the registry iterated
in insertion order, filtered to version > current_version
(migrations.iter().filter(m.version > current_version)). -/
def pending_forward (migrations : List Migration) (current_version : Int) : List Migration :=
  migrations.filter (fun m => m.version > current_version)

/-- The backward work list of rollback: the registry filtered to
version > target_version and reversed
(migrations.iter().filter(m.version > target_version).rev()). -/
def pending_backward (migrations : List Migration) (target_version : Int) : List Migration :=
  (migrations.filter (fun m => m.version > target_version)).reverse

/-- MigrationManager::run_pending_migrations: read the current version, then
apply every registered migration with a greater version, in registry order,
stopping at the first failure. -/
def run_pending_migrations (migrations : List Migration) (env : Env) (db : DbState) :
    RunOutcome :=
  match get_current_version env db with
  | (evs, Except.ok v) =>
    let o := applyList env db (pending_forward migrations v)
    ⟨evs ++ o.events, o.db, o.err⟩
  | (evs, Except.error e) => ⟨evs, db, some e⟩

/-- MigrationManager::rollback: read the current version, emit the
migration_rollback metric tagged from_version / to_version, then roll back
every registered migration with version above the target, in reverse
registry order, stopping at the first failure. -/
def rollback (migrations : List Migration) (env : Env) (db : DbState)
    (target_version : Int) : RunOutcome :=
  match get_current_version env db with
  | (evs, Except.ok current) =>
    let ev1 : Event := Event.metric "migration_rollback"
      [("from_version", toString current), ("to_version", toString target_version)]
    let o := rollbackList env db (pending_backward migrations target_version)
    ⟨evs ++ ev1 :: o.events, o.db, o.err⟩
  | (evs, Except.error e) => ⟨evs, db, some e⟩

/-- MigrationManager::add_migration: self.migrations.push(migration),
an unconditional append to the registry. -/
def add_migration (migrations : List Migration) (m : Migration) : List Migration :=
  migrations ++ [m]

/-- The up/down scripts whose execution was attempted, in trace order. -/
def scriptsExecutedOf (evs : List Event) : List String :=
  evs.filterMap (fun e => match e with | Event.execScript q => some q | _ => none)

/-- The versions of the applied-migration records written, in trace order. -/
def appliedVersionsOf (evs : List Event) : List Int :=
  evs.filterMap (fun e => match e with | Event.createRecord r => some r.version | _ => none)

/-- The versions whose records were deleted, in trace order. -/
def rolledBackVersionsOf (evs : List Event) : List Int :=
  evs.filterMap (fun e => match e with | Event.deleteVersion v => some v | _ => none)

/-- The records a fully successful run over a work list appends, with their
time::now() timestamps taken from the advancing clock. -/
def newRecords : List Migration → Nat → List AppliedRecord
  | [], _ => []
  | m :: ms, c => appliedRecordOf m c :: newRecords ms (c + 1)

/-- The records left after successive DELETE FROM migration WHERE
version = $version statements, one per rolled-back migration. -/
def removeVersions : List AppliedRecord → List Migration → List AppliedRecord
  | rs, [] => rs
  | rs, m :: ms => removeVersions (rs.filter (fun r => r.version != m.version)) ms

/-- Whole-manager state: the in-memory registry together with the durable
state behind the shared database handle. -/
structure ManagerState where
  migrations : List Migration
  db : DbState
deriving Repr, DecidableEq

/-- run_pending_migrations as a step on the whole manager state; the method
takes the manager by shared reference, so only the durable state moves. -/
def runPendingStep (s : ManagerState) (env : Env) :
    ManagerState × List Event × Option MigrationError :=
  let o := run_pending_migrations s.migrations env s.db
  (⟨s.migrations, o.db⟩, o.events, o.err)

/-- rollback as a step on the whole manager state. -/
def rollbackStep (s : ManagerState) (env : Env) (target_version : Int) :
    ManagerState × List Event × Option MigrationError :=
  let o := rollback s.migrations env s.db target_version
  (⟨s.migrations, o.db⟩, o.events, o.err)

/-- apply_migration as a step on the whole manager state. -/
def applyMigrationStep (s : ManagerState) (env : Env) (m : Migration) :
    ManagerState × List Event × Option MigrationError :=
  let o := apply_migration env s.db m
  (⟨s.migrations, o.db⟩, o.events, o.err)

/-- rollback_migration as a step on the whole manager state. -/
def rollbackMigrationStep (s : ManagerState) (env : Env) (m : Migration) :
    ManagerState × List Event × Option MigrationError :=
  let o := rollback_migration env s.db m
  (⟨s.migrations, o.db⟩, o.events, o.err)

/-- get_current_version as a step on the whole manager state: it reads the
durable state and changes nothing. -/
def getCurrentVersionStep (s : ManagerState) (env : Env) :
    ManagerState × List Event × Except MigrationError Int :=
  (s, get_current_version env s.db)

/-- add_migration as a step on the whole manager state. -/
def addMigrationStep (s : ManagerState) (m : Migration) : ManagerState :=
  ⟨add_migration s.migrations m, s.db⟩

/-- Concrete fixtures for counterexamples and witnesses. -/
def mig1 : Migration := ⟨1, "m1", "first", "u1", "d1", none⟩

def mig2 : Migration := ⟨2, "m2", "second", "u2", "d2", none⟩

def mig5 : Migration := ⟨5, "m5", "fifth", "u5", "d5", none⟩

def envAllOk : Env := ⟨fun _ => true, fun _ => true, fun _ => true, true, fun _ => ""⟩

def db0 : DbState := ⟨[], 0⟩

/-! Helper lemmas about the maximum recorded version. -/

lemma maxRecordVersion_eq_none_iff (rs : List AppliedRecord) :
    maxRecordVersion rs = none ↔ rs = [] := by
  cases rs with
  | nil => simp [maxRecordVersion]
  | cons r rs =>
    simp only [maxRecordVersion]
    cases maxRecordVersion rs <;> simp

lemma version_le_maxRecordVersion {r : AppliedRecord} {rs : List AppliedRecord}
    (h : r ∈ rs) : ∃ v, maxRecordVersion rs = some v ∧ r.version ≤ v := by
  induction rs with
  | nil => cases h
  | cons s ss ih =>
    rcases List.mem_cons.mp h with h | h
    · subst h
      cases hms : maxRecordVersion ss with
      | none => exact ⟨r.version, by simp [maxRecordVersion, hms], le_refl _⟩
      | some v => exact ⟨max r.version v, by simp [maxRecordVersion, hms], le_max_left _ _⟩
    · obtain ⟨v, hv, hle⟩ := ih h
      exact ⟨max s.version v, by simp [maxRecordVersion, hv],
        le_trans hle (le_max_right _ _)⟩

lemma maxRecordVersion_attained {rs : List AppliedRecord} {v : Int}
    (h : maxRecordVersion rs = some v) : ∃ r ∈ rs, r.version = v := by
  induction rs generalizing v with
  | nil => simp [maxRecordVersion] at h
  | cons s ss ih =>
    cases hms : maxRecordVersion ss with
    | none =>
      simp only [maxRecordVersion, hms] at h
      exact ⟨s, List.mem_cons_self _ _, by injection h⟩
    | some w =>
      simp only [maxRecordVersion, hms] at h
      have hmax : max s.version w = v := by injection h
      rcases le_total w s.version with hle | hle
      · exact ⟨s, List.mem_cons_self _ _, by rw [← hmax, max_eq_left hle]⟩
      · obtain ⟨r, hr, hrv⟩ := ih hms
        exact ⟨r, List.mem_cons_of_mem _ hr, by rw [hrv, ← hmax, max_eq_right hle]⟩

lemma version_le_currentOf {r : AppliedRecord} {rs : List AppliedRecord}
    (h : r ∈ rs) : r.version ≤ currentOf rs := by
  obtain ⟨v, hv, hle⟩ := version_le_maxRecordVersion h
  simpa [currentOf, hv] using hle

lemma currentOf_nonneg {rs : List AppliedRecord}
    (h : ∀ r ∈ rs, 0 < r.version) : 0 ≤ currentOf rs := by
  cases hms : maxRecordVersion rs with
  | none => simp [currentOf, hms]
  | some v =>
    obtain ⟨r, hr, hrv⟩ := maxRecordVersion_attained hms
    have := h r hr
    simp only [currentOf, hms, Option.getD_some]
    omega

lemma currentOf_le_append {rs ts : List AppliedRecord}
    (h : ∀ t ∈ ts, currentOf rs < t.version) :
    currentOf rs ≤ currentOf (rs ++ ts) := by
  cases hms : maxRecordVersion rs with
  | none =>
    have : rs = [] := (maxRecordVersion_eq_none_iff rs).mp hms
    subst this
    simp only [List.nil_append]
    exact currentOf_nonneg (fun t ht => by
      have := h t ht
      simpa [currentOf, maxRecordVersion] using this)
  | some v =>
    obtain ⟨r, hr, hrv⟩ := maxRecordVersion_attained hms
    have hmem : r ∈ rs ++ ts := List.mem_append_left _ hr
    have hle := version_le_currentOf hmem
    have hcur : currentOf rs = v := by simp [currentOf, hms]
    rw [hcur, ← hrv]
    exact hle

lemma currentOf_subset_le {rs ts : List AppliedRecord}
    (hsub : ∀ r ∈ ts, r ∈ rs) (hpos : ∀ r ∈ rs, 0 < r.version) :
    currentOf ts ≤ currentOf rs := by
  cases hms : maxRecordVersion ts with
  | none => simp only [currentOf, hms, Option.getD_none]; exact currentOf_nonneg hpos
  | some v =>
    obtain ⟨r, hr, hrv⟩ := maxRecordVersion_attained hms
    have hle := version_le_currentOf (hsub r hr)
    have hcur : currentOf ts = v := by simp [currentOf, hms]
    rw [hcur, ← hrv]
    exact hle

/-! Helper lemmas about the record lists produced by runs. -/

lemma newRecords_map_version (ms : List Migration) :
    ∀ c, (newRecords ms c).map (fun r => r.version) = ms.map (fun m => m.version) := by
  induction ms with
  | nil => intro c; simp [newRecords]
  | cons m ms ih => intro c; simp [newRecords, appliedRecordOf, ih]

lemma removeVersions_subset {r : AppliedRecord} (ms : List Migration) :
    ∀ rs, r ∈ removeVersions rs ms → r ∈ rs := by
  induction ms with
  | nil => intro rs h; simpa [removeVersions] using h
  | cons m ms ih =>
    intro rs h
    exact List.mem_of_mem_filter (ih _ h)

/-! Case analyses of a single apply / rollback step. -/

lemma apply_migration_ok (env : Env) (db : DbState) (m : Migration)
    (h1 : env.queryOk m.up = true) (h2 : env.createOk m.version = true) :
    apply_migration env db m =
      ⟨[Event.metric "migration_apply_details"
          [("version", toString m.version), ("name", m.name)],
        Event.execScript m.up, Event.createRecord (appliedRecordOf m db.clock)],
        ⟨db.records ++ [appliedRecordOf m db.clock], db.clock + 1⟩, none⟩ := by
  simp [apply_migration, h1, h2]

lemma apply_migration_failScript (env : Env) (db : DbState) (m : Migration)
    (h1 : env.queryOk m.up = false) :
    apply_migration env db m =
      ⟨[Event.metric "migration_apply_details"
          [("version", toString m.version), ("name", m.name)],
        Event.execScript m.up], db,
        some (MigrationError.MigrationFailed
          ("Failed to apply migration: " ++ env.errMsg m.up))⟩ := by
  simp [apply_migration, h1]

lemma apply_migration_failCreate (env : Env) (db : DbState) (m : Migration)
    (h1 : env.queryOk m.up = true) (h2 : env.createOk m.version = false) :
    apply_migration env db m =
      ⟨[Event.metric "migration_apply_details"
          [("version", toString m.version), ("name", m.name)],
        Event.execScript m.up], db,
        some (MigrationError.DatabaseError (env.errMsg createQuery))⟩ := by
  simp [apply_migration, h1, h2]

lemma apply_migration_err_indep (env : Env) (db db' : DbState) (m : Migration) :
    (apply_migration env db m).err = (apply_migration env db' m).err := by
  by_cases h1 : env.queryOk m.up
  · by_cases h2 : env.createOk m.version
    · rw [apply_migration_ok env db m h1 h2, apply_migration_ok env db' m h1 h2]
    · rw [apply_migration_failCreate env db m h1 (by simpa using h2),
        apply_migration_failCreate env db' m h1 (by simpa using h2)]
  · rw [apply_migration_failScript env db m (by simpa using h1),
      apply_migration_failScript env db' m (by simpa using h1)]

lemma apply_migration_err_none {env : Env} {db : DbState} {m : Migration}
    (h : (apply_migration env db m).err = none) :
    env.queryOk m.up = true ∧ env.createOk m.version = true := by
  by_cases h1 : env.queryOk m.up
  · by_cases h2 : env.createOk m.version
    · exact ⟨h1, h2⟩
    · rw [apply_migration_failCreate env db m h1 (by simpa using h2)] at h
      simp at h
  · rw [apply_migration_failScript env db m (by simpa using h1)] at h
    simp at h

lemma rollback_migration_ok (env : Env) (db : DbState) (m : Migration)
    (h1 : env.queryOk m.down = true) (h2 : env.deleteOk m.version = true) :
    rollback_migration env db m =
      ⟨[Event.metric "migration_rollback_single"
          [("version", toString m.version), ("name", m.name)],
        Event.execScript m.down, Event.deleteVersion m.version],
        ⟨db.records.filter (fun r => r.version != m.version), db.clock⟩, none⟩ := by
  simp [rollback_migration, h1, h2]

lemma rollback_migration_failScript (env : Env) (db : DbState) (m : Migration)
    (h1 : env.queryOk m.down = false) :
    rollback_migration env db m =
      ⟨[Event.metric "migration_rollback_single"
          [("version", toString m.version), ("name", m.name)],
        Event.execScript m.down], db,
        some (MigrationError.MigrationFailed
          ("Failed to rollback migration: " ++ env.errMsg m.down))⟩ := by
  simp [rollback_migration, h1]

lemma rollback_migration_failDelete (env : Env) (db : DbState) (m : Migration)
    (h1 : env.queryOk m.down = true) (h2 : env.deleteOk m.version = false) :
    rollback_migration env db m =
      ⟨[Event.metric "migration_rollback_single"
          [("version", toString m.version), ("name", m.name)],
        Event.execScript m.down], db,
        some (MigrationError.DatabaseError (env.errMsg deleteQuery))⟩ := by
  simp [rollback_migration, h1, h2]

lemma rollback_migration_err_indep (env : Env) (db db' : DbState) (m : Migration) :
    (rollback_migration env db m).err = (rollback_migration env db' m).err := by
  by_cases h1 : env.queryOk m.down
  · by_cases h2 : env.deleteOk m.version
    · rw [rollback_migration_ok env db m h1 h2, rollback_migration_ok env db' m h1 h2]
    · rw [rollback_migration_failDelete env db m h1 (by simpa using h2),
        rollback_migration_failDelete env db' m h1 (by simpa using h2)]
  · rw [rollback_migration_failScript env db m (by simpa using h1),
      rollback_migration_failScript env db' m (by simpa using h1)]

lemma rollback_migration_err_none {env : Env} {db : DbState} {m : Migration}
    (h : (rollback_migration env db m).err = none) :
    env.queryOk m.down = true ∧ env.deleteOk m.version = true := by
  by_cases h1 : env.queryOk m.down
  · by_cases h2 : env.deleteOk m.version
    · exact ⟨h1, h2⟩
    · rw [rollback_migration_failDelete env db m h1 (by simpa using h2)] at h
      simp at h
  · rw [rollback_migration_failScript env db m (by simpa using h1)] at h
    simp at h

/-! Helper lemmas about the event projections. -/

lemma scriptsExecutedOf_append (a b : List Event) :
    scriptsExecutedOf (a ++ b) = scriptsExecutedOf a ++ scriptsExecutedOf b := by
  simp [scriptsExecutedOf]

lemma appliedVersionsOf_append (a b : List Event) :
    appliedVersionsOf (a ++ b) = appliedVersionsOf a ++ appliedVersionsOf b := by
  simp [appliedVersionsOf]

lemma rolledBackVersionsOf_append (a b : List Event) :
    rolledBackVersionsOf (a ++ b) = rolledBackVersionsOf a ++ rolledBackVersionsOf b := by
  simp [rolledBackVersionsOf]

/-! Unfolding equations and main lemmas for the two sequential loops. -/

lemma applyList_cons (env : Env) (db : DbState) (m : Migration) (ms : List Migration) :
    applyList env db (m :: ms) =
      match (apply_migration env db m).err with
      | some e => ⟨(apply_migration env db m).events, (apply_migration env db m).db, some e⟩
      | none =>
        ⟨(apply_migration env db m).events ++
            (applyList env (apply_migration env db m).db ms).events,
          (applyList env (apply_migration env db m).db ms).db,
          (applyList env (apply_migration env db m).db ms).err⟩ := rfl

lemma rollbackList_cons (env : Env) (db : DbState) (m : Migration) (ms : List Migration) :
    rollbackList env db (m :: ms) =
      match (rollback_migration env db m).err with
      | some e => ⟨(rollback_migration env db m).events, (rollback_migration env db m).db, some e⟩
      | none =>
        ⟨(rollback_migration env db m).events ++
            (rollbackList env (rollback_migration env db m).db ms).events,
          (rollbackList env (rollback_migration env db m).db ms).db,
          (rollbackList env (rollback_migration env db m).db ms).err⟩ := rfl

lemma applyList_allOk (env : Env) (ms : List Migration)
    (h : ∀ m ∈ ms, env.queryOk m.up = true ∧ env.createOk m.version = true) :
    ∀ db : DbState,
      (applyList env db ms).err = none ∧
      (applyList env db ms).db =
        ⟨db.records ++ newRecords ms db.clock, db.clock + ms.length⟩ ∧
      appliedVersionsOf (applyList env db ms).events = ms.map (fun m => m.version) ∧
      scriptsExecutedOf (applyList env db ms).events = ms.map (fun m => m.up) := by
  induction ms with
  | nil =>
    intro db
    simp [applyList, newRecords, appliedVersionsOf, scriptsExecutedOf]
  | cons m ms ih =>
    intro db
    obtain ⟨h1, h2⟩ := h m (List.mem_cons_self _ _)
    have hrest := fun m' hm' => h m' (List.mem_cons_of_mem _ hm')
    obtain ⟨e1, e2, e3, e4⟩ :=
      ih hrest ⟨db.records ++ [appliedRecordOf m db.clock], db.clock + 1⟩
    rw [applyList_cons, apply_migration_ok env db m h1 h2]
    simp only []
    refine ⟨by simpa using e1, ?_, ?_, ?_⟩
    · rw [show (⟨db.records ++ [appliedRecordOf m db.clock], db.clock + 1⟩ : DbState)
          = (⟨db.records ++ [appliedRecordOf m db.clock], db.clock + 1⟩ : DbState) from rfl] at e2
      simp only [e2, newRecords, List.length_cons]
      simp only [DbState.mk.injEq, List.append_assoc, List.singleton_append]
      exact ⟨trivial, by omega⟩
    · rw [appliedVersionsOf_append]
      simp only [e3]
      simp [appliedVersionsOf, appliedRecordOf]
    · rw [scriptsExecutedOf_append]
      simp only [e4]
      simp [scriptsExecutedOf]

lemma rollbackList_allOk (env : Env) (ms : List Migration)
    (h : ∀ m ∈ ms, env.queryOk m.down = true ∧ env.deleteOk m.version = true) :
    ∀ db : DbState,
      (rollbackList env db ms).err = none ∧
      (rollbackList env db ms).db = ⟨removeVersions db.records ms, db.clock⟩ ∧
      rolledBackVersionsOf (rollbackList env db ms).events = ms.map (fun m => m.version) ∧
      scriptsExecutedOf (rollbackList env db ms).events = ms.map (fun m => m.down) := by
  induction ms with
  | nil =>
    intro db
    simp [rollbackList, removeVersions, rolledBackVersionsOf, scriptsExecutedOf]
  | cons m ms ih =>
    intro db
    obtain ⟨h1, h2⟩ := h m (List.mem_cons_self _ _)
    have hrest := fun m' hm' => h m' (List.mem_cons_of_mem _ hm')
    obtain ⟨e1, e2, e3, e4⟩ :=
      ih hrest ⟨db.records.filter (fun r => r.version != m.version), db.clock⟩
    rw [rollbackList_cons, rollback_migration_ok env db m h1 h2]
    simp only []
    refine ⟨by simpa using e1, ?_, ?_, ?_⟩
    · simp only [e2, removeVersions]
    · rw [rolledBackVersionsOf_append]
      simp only [e3]
      simp [rolledBackVersionsOf]
    · rw [scriptsExecutedOf_append]
      simp only [e4]
      simp [scriptsExecutedOf]

lemma applyList_err_none_shape (env : Env) (ms : List Migration) :
    ∀ db : DbState, (applyList env db ms).err = none →
      (applyList env db ms).db =
        ⟨db.records ++ newRecords ms db.clock, db.clock + ms.length⟩ := by
  induction ms with
  | nil => intro db _; simp [applyList, newRecords]
  | cons m ms ih =>
    intro db h
    cases herr : (apply_migration env db m).err with
    | some e =>
      rw [applyList_cons, herr] at h
      simp at h
    | none =>
      obtain ⟨h1, h2⟩ := apply_migration_err_none herr
      rw [applyList_cons, apply_migration_ok env db m h1 h2] at h ⊢
      simp only [] at h ⊢
      have := ih ⟨db.records ++ [appliedRecordOf m db.clock], db.clock + 1⟩ (by simpa using h)
      simp only [this, newRecords, List.length_cons]
      simp only [DbState.mk.injEq, List.append_assoc, List.singleton_append]
      exact ⟨trivial, by omega⟩

lemma rollbackList_err_none_shape (env : Env) (ms : List Migration) :
    ∀ db : DbState, (rollbackList env db ms).err = none →
      (rollbackList env db ms).db = ⟨removeVersions db.records ms, db.clock⟩ := by
  induction ms with
  | nil => intro db _; simp [rollbackList, removeVersions]
  | cons m ms ih =>
    intro db h
    cases herr : (rollback_migration env db m).err with
    | some e =>
      rw [rollbackList_cons, herr] at h
      simp at h
    | none =>
      obtain ⟨h1, h2⟩ := rollback_migration_err_none herr
      rw [rollbackList_cons, rollback_migration_ok env db m h1 h2] at h ⊢
      simp only [] at h ⊢
      have := ih ⟨db.records.filter (fun r => r.version != m.version), db.clock⟩
        (by simpa using h)
      simp only [this, removeVersions]

lemma apply_migration_fail_shape {env : Env} {db : DbState} {m : Migration}
    (h : (apply_migration env db m).err ≠ none) :
    (apply_migration env db m).events =
      [Event.metric "migration_apply_details"
          [("version", toString m.version), ("name", m.name)],
        Event.execScript m.up] ∧
    (apply_migration env db m).db = db := by
  by_cases h1 : env.queryOk m.up
  · by_cases h2 : env.createOk m.version
    · rw [apply_migration_ok env db m h1 h2] at h
      simp at h
    · rw [apply_migration_failCreate env db m h1 (by simpa using h2)]
      exact ⟨rfl, rfl⟩
  · rw [apply_migration_failScript env db m (by simpa using h1)]
    exact ⟨rfl, rfl⟩

lemma rollback_migration_fail_shape {env : Env} {db : DbState} {m : Migration}
    (h : (rollback_migration env db m).err ≠ none) :
    (rollback_migration env db m).events =
      [Event.metric "migration_rollback_single"
          [("version", toString m.version), ("name", m.name)],
        Event.execScript m.down] ∧
    (rollback_migration env db m).db = db := by
  by_cases h1 : env.queryOk m.down
  · by_cases h2 : env.deleteOk m.version
    · rw [rollback_migration_ok env db m h1 h2] at h
      simp at h
    · rw [rollback_migration_failDelete env db m h1 (by simpa using h2)]
      exact ⟨rfl, rfl⟩
  · rw [rollback_migration_failScript env db m (by simpa using h1)]
    exact ⟨rfl, rfl⟩

lemma applyList_stops (env : Env) (bad : Migration) (post pre : List Migration)
    (hpre : ∀ m ∈ pre, env.queryOk m.up = true ∧ env.createOk m.version = true) :
    ∀ db : DbState, (apply_migration env db bad).err ≠ none →
      (applyList env db (pre ++ bad :: post)).err = (apply_migration env db bad).err ∧
      scriptsExecutedOf (applyList env db (pre ++ bad :: post)).events
        = pre.map (fun m => m.up) ++ [bad.up] ∧
      (applyList env db (pre ++ bad :: post)).db.records
        = db.records ++ newRecords pre db.clock := by
  induction pre with
  | nil =>
    intro db hbad
    cases herr : (apply_migration env db bad).err with
    | none => exact absurd herr hbad
    | some e =>
      obtain ⟨hev, hdb⟩ := @apply_migration_fail_shape env db bad (by rw [herr]; simp)
      rw [List.nil_append, applyList_cons, herr]
      simp only []
      refine ⟨trivial, ?_, ?_⟩
      · rw [hev]
        simp [scriptsExecutedOf]
      · rw [hdb]
        simp [newRecords]
  | cons m pre ih =>
    intro db hbad
    obtain ⟨h1, h2⟩ := hpre m (List.mem_cons_self _ _)
    have hpre2 := fun m' hm' => hpre m' (List.mem_cons_of_mem _ hm')
    have hbad2 : (apply_migration env
        ⟨db.records ++ [appliedRecordOf m db.clock], db.clock + 1⟩ bad).err ≠ none := by
      rw [apply_migration_err_indep env _ db bad]
      exact hbad
    obtain ⟨c1, c2, c3⟩ :=
      ih hpre2 ⟨db.records ++ [appliedRecordOf m db.clock], db.clock + 1⟩ hbad2
    rw [List.cons_append, applyList_cons, apply_migration_ok env db m h1 h2]
    simp only []
    refine ⟨?_, ?_, ?_⟩
    · rw [c1, apply_migration_err_indep env _ db bad]
    · rw [scriptsExecutedOf_append, c2]
      simp [scriptsExecutedOf]
    · rw [c3]
      simp [newRecords, List.append_assoc]

lemma rollbackList_stops (env : Env) (bad : Migration) (post pre : List Migration)
    (hpre : ∀ m ∈ pre, env.queryOk m.down = true ∧ env.deleteOk m.version = true) :
    ∀ db : DbState, (rollback_migration env db bad).err ≠ none →
      (rollbackList env db (pre ++ bad :: post)).err
        = (rollback_migration env db bad).err ∧
      scriptsExecutedOf (rollbackList env db (pre ++ bad :: post)).events
        = pre.map (fun m => m.down) ++ [bad.down] ∧
      (rollbackList env db (pre ++ bad :: post)).db.records
        = removeVersions db.records pre := by
  induction pre with
  | nil =>
    intro db hbad
    cases herr : (rollback_migration env db bad).err with
    | none => exact absurd herr hbad
    | some e =>
      obtain ⟨hev, hdb⟩ := @rollback_migration_fail_shape env db bad (by rw [herr]; simp)
      rw [List.nil_append, rollbackList_cons, herr]
      simp only []
      refine ⟨trivial, ?_, ?_⟩
      · rw [hev]
        simp [scriptsExecutedOf]
      · rw [hdb]
        simp [removeVersions]
  | cons m pre ih =>
    intro db hbad
    obtain ⟨h1, h2⟩ := hpre m (List.mem_cons_self _ _)
    have hpre2 := fun m' hm' => hpre m' (List.mem_cons_of_mem _ hm')
    have hbad2 : (rollback_migration env
        ⟨db.records.filter (fun r => r.version != m.version), db.clock⟩ bad).err ≠ none := by
      rw [rollback_migration_err_indep env _ db bad]
      exact hbad
    obtain ⟨c1, c2, c3⟩ :=
      ih hpre2 ⟨db.records.filter (fun r => r.version != m.version), db.clock⟩ hbad2
    rw [List.cons_append, rollbackList_cons, rollback_migration_ok env db m h1 h2]
    simp only []
    refine ⟨?_, ?_, ?_⟩
    · rw [c1, rollback_migration_err_indep env _ db bad]
    · rw [scriptsExecutedOf_append, c2]
      simp [scriptsExecutedOf]
    · rw [c3]
      simp [removeVersions]

/-! Unfolding of the two public engine operations. -/

lemma run_pending_eq (mgr : List Migration) (env : Env) (db : DbState)
    (hsel : env.selectOk = true) :
    run_pending_migrations mgr env db =
      ⟨Event.selectVersion ::
          (applyList env db (pending_forward mgr (currentVersionPure db))).events,
        (applyList env db (pending_forward mgr (currentVersionPure db))).db,
        (applyList env db (pending_forward mgr (currentVersionPure db))).err⟩ := by
  simp [run_pending_migrations, get_current_version, hsel]

lemma run_pending_failSelect (mgr : List Migration) (env : Env) (db : DbState)
    (hsel : env.selectOk = false) :
    run_pending_migrations mgr env db =
      ⟨[Event.selectVersion], db,
        some (MigrationError.DatabaseError (env.errMsg selectQuery))⟩ := by
  simp [run_pending_migrations, get_current_version, hsel]

lemma rollback_eq (mgr : List Migration) (env : Env) (db : DbState) (t : Int)
    (hsel : env.selectOk = true) :
    rollback mgr env db t =
      ⟨Event.selectVersion ::
          Event.metric "migration_rollback"
            [("from_version", toString (currentVersionPure db)), ("to_version", toString t)]
          :: (rollbackList env db (pending_backward mgr t)).events,
        (rollbackList env db (pending_backward mgr t)).db,
        (rollbackList env db (pending_backward mgr t)).err⟩ := by
  simp [rollback, get_current_version, hsel]

lemma rollback_failSelect (mgr : List Migration) (env : Env) (db : DbState) (t : Int)
    (hsel : env.selectOk = false) :
    rollback mgr env db t =
      ⟨[Event.selectVersion], db,
        some (MigrationError.DatabaseError (env.errMsg selectQuery))⟩ := by
  simp [rollback, get_current_version, hsel]

lemma run_pending_success_select {mgr : List Migration} {env : Env} {db : DbState}
    (h : (run_pending_migrations mgr env db).err = none) : env.selectOk = true := by
  by_cases hsel : env.selectOk
  · exact hsel
  · rw [run_pending_failSelect mgr env db (by simpa using hsel)] at h
    simp at h

lemma rollback_success_select {mgr : List Migration} {env : Env} {db : DbState} {t : Int}
    (h : (rollback mgr env db t).err = none) : env.selectOk = true := by
  by_cases hsel : env.selectOk
  · exact hsel
  · rw [rollback_failSelect mgr env db t (by simpa using hsel)] at h
    simp at h

lemma run_pending_success_db {mgr : List Migration} {env : Env} {db : DbState}
    (h : (run_pending_migrations mgr env db).err = none) :
    (run_pending_migrations mgr env db).db =
      ⟨db.records ++ newRecords (pending_forward mgr (currentVersionPure db)) db.clock,
        db.clock + (pending_forward mgr (currentVersionPure db)).length⟩ := by
  have hsel := run_pending_success_select h
  rw [run_pending_eq mgr env db hsel] at h ⊢
  exact applyList_err_none_shape env _ db (by simpa using h)

lemma rollback_success_db {mgr : List Migration} {env : Env} {db : DbState} {t : Int}
    (h : (rollback mgr env db t).err = none) :
    (rollback mgr env db t).db =
      ⟨removeVersions db.records (pending_backward mgr t), db.clock⟩ := by
  have hsel := rollback_success_select h
  rw [rollback_eq mgr env db t hsel] at h ⊢
  exact rollbackList_err_none_shape env _ db (by simpa using h)

lemma mem_pending_forward {mgr : List Migration} {v : Int} {m : Migration} :
    m ∈ pending_forward mgr v ↔ m ∈ mgr ∧ v < m.version := by
  simp [pending_forward, List.mem_filter]

lemma mem_pending_backward {mgr : List Migration} {t : Int} {m : Migration} :
    m ∈ pending_backward mgr t ↔ m ∈ mgr ∧ t < m.version := by
  simp [pending_backward, List.mem_filter]

lemma currentVersionPure_le_run_pending {mgr : List Migration} {env : Env} {db : DbState}
    (h : (run_pending_migrations mgr env db).err = none) :
    currentVersionPure db ≤ currentVersionPure (run_pending_migrations mgr env db).db := by
  rw [run_pending_success_db h]
  show currentOf db.records ≤ currentOf (db.records ++ _)
  apply currentOf_le_append
  intro s hs
  have hver : s.version ∈
      (newRecords (pending_forward mgr (currentVersionPure db)) db.clock).map
        (fun r => r.version) := List.mem_map_of_mem _ hs
  rw [newRecords_map_version] at hver
  obtain ⟨m, hm, hv⟩ := List.mem_map.mp hver
  have := (mem_pending_forward.mp hm).2
  rw [← hv]
  exact this

/-- Every record version is strictly positive: the durable-state invariant
maintained by the engine when started from an empty record set. -/
def goodDb (db : DbState) : Prop := ∀ r ∈ db.records, 0 < r.version

lemma currentVersionPure_rollback_le {mgr : List Migration} {env : Env} {db : DbState}
    {t : Int} (hg : goodDb db) (h : (rollback mgr env db t).err = none) :
    currentVersionPure (rollback mgr env db t).db ≤ currentVersionPure db := by
  rw [rollback_success_db h]
  exact currentOf_subset_le (fun r hr => removeVersions_subset _ _ hr) hg

/-- The durable states reachable from an empty record set through successful
public engine operations (run_pending_migrations and rollback; add_migration
and get_current_version do not touch the durable state). -/
inductive Reachable : DbState → Prop where
  | init (c : Nat) : Reachable ⟨[], c⟩
  | stepRun (mgr : List Migration) (env : Env) (db : DbState) :
      Reachable db → (run_pending_migrations mgr env db).err = none →
      Reachable (run_pending_migrations mgr env db).db
  | stepRollback (mgr : List Migration) (env : Env) (db : DbState) (t : Int) :
      Reachable db → (rollback mgr env db t).err = none →
      Reachable (rollback mgr env db t).db

lemma reachable_goodDb {db : DbState} (h : Reachable db) : goodDb db := by
  induction h with
  | init c => intro r hr; cases hr
  | stepRun mgr env db hdb herr ih =>
    intro r hr
    rw [run_pending_success_db herr] at hr
    rcases List.mem_append.mp hr with hr | hr
    · exact ih r hr
    · have hver : r.version ∈
          (newRecords (pending_forward mgr (currentVersionPure db)) db.clock).map
            (fun s => s.version) := List.mem_map_of_mem _ hr
      rw [newRecords_map_version] at hver
      obtain ⟨m, hm, hv⟩ := List.mem_map.mp hver
      have hgt := (mem_pending_forward.mp hm).2
      have h0 : 0 ≤ currentVersionPure db := currentOf_nonneg ih
      rw [← hv]
      omega
  | stepRollback mgr env db t hdb herr ih =>
    intro r hr
    rw [rollback_success_db herr] at hr
    exact ih r (removeVersions_subset _ _ hr)

/-! Further concrete fixtures used in counterexamples and witnesses. -/

/-- A second migration carrying version 1, duplicating mig1's version. -/
def mig1dup : Migration := ⟨1, "m1b", "duplicate of version 1", "u1b", "d1b", none⟩

/-- A durable state in which versions 1 and 2 are recorded as applied. -/
def db12 : DbState :=
  ⟨[⟨1, "m1", "first", 0⟩, ⟨2, "m2", "second", 1⟩], 2⟩

/-- An environment in which exactly the statements u2 and d2 fail. -/
def envFail2 : Env :=
  ⟨fun q => !(q == "u2" || q == "d2"), fun _ => true, fun _ => true, true, fun _ => "boom"⟩

/-- Claim C1, as frozen, asserts application in strictly ascending version
order for every registry.  The loop in run_pending_migrations iterates the
registry in insertion order without sorting: with the registry [mig2, mig1]
and an empty durable state it applies version 2 before version 1, so the
applied-version sequence [2, 1] is not strictly ascending. -/
theorem C1_counterexample :
    appliedVersionsOf (run_pending_migrations [mig2, mig1] envAllOk db0).events = [2, 1] ∧
    ¬ List.Chain' (fun a b => a < b)
        (appliedVersionsOf (run_pending_migrations [mig2, mig1] envAllOk db0).events) := by
  have he : appliedVersionsOf (run_pending_migrations [mig2, mig1] envAllOk db0).events
      = [2, 1] := by decide
  refine ⟨he, ?_⟩
  intro hchain
  rw [he] at hchain
  exact absurd (List.chain'_cons.mp hchain).1 (by decide)

/-- Claim C1 amended: for every registry contents and current version v,
run_pending_migrations applies exactly the registered migrations whose
version is strictly greater than v, in registry insertion order (not sorted
by version), and applies none when v is at least every registered version. -/
theorem C1_amended_applies_in_registry_order (mgr : List Migration) (env : Env)
    (db : DbState) (hsel : env.selectOk = true)
    (hups : ∀ m ∈ mgr, env.queryOk m.up = true)
    (hcrs : ∀ m ∈ mgr, env.createOk m.version = true) :
    appliedVersionsOf (run_pending_migrations mgr env db).events
      = (pending_forward mgr (currentVersionPure db)).map (fun m => m.version) ∧
    scriptsExecutedOf (run_pending_migrations mgr env db).events
      = (pending_forward mgr (currentVersionPure db)).map (fun m => m.up) ∧
    ((∀ m ∈ mgr, m.version ≤ currentVersionPure db) →
      scriptsExecutedOf (run_pending_migrations mgr env db).events = []) := by
  have hok : ∀ m ∈ pending_forward mgr (currentVersionPure db),
      env.queryOk m.up = true ∧ env.createOk m.version = true := by
    intro m hm
    have hmem := (mem_pending_forward.mp hm).1
    exact ⟨hups m hmem, hcrs m hmem⟩
  obtain ⟨e1, e2, e3, e4⟩ := applyList_allOk env _ hok db
  rw [run_pending_eq mgr env db hsel]
  simp only []
  have hsv1 : appliedVersionsOf (Event.selectVersion ::
      (applyList env db (pending_forward mgr (currentVersionPure db))).events)
      = appliedVersionsOf
        (applyList env db (pending_forward mgr (currentVersionPure db))).events := by
    simp [appliedVersionsOf]
  have hsv2 : scriptsExecutedOf (Event.selectVersion ::
      (applyList env db (pending_forward mgr (currentVersionPure db))).events)
      = scriptsExecutedOf
        (applyList env db (pending_forward mgr (currentVersionPure db))).events := by
    simp [scriptsExecutedOf]
  refine ⟨by rw [hsv1, e3], by rw [hsv2, e4], ?_⟩
  intro hall
  have hnil : pending_forward mgr (currentVersionPure db) = [] := by
    apply List.filter_eq_nil_iff.mpr
    intro m hm
    simpa using not_lt.mpr (hall m hm)
  rw [hsv2, e4, hnil]
  simp

/-- A closed instance of the amended C1 theorem, at the out-of-order
registry [mig2, mig1], the all-success environment and the empty state. -/
theorem C1_amended_witness :
    appliedVersionsOf (run_pending_migrations [mig2, mig1] envAllOk db0).events
      = (pending_forward [mig2, mig1] (currentVersionPure db0)).map (fun m => m.version) ∧
    scriptsExecutedOf (run_pending_migrations [mig2, mig1] envAllOk db0).events
      = (pending_forward [mig2, mig1] (currentVersionPure db0)).map (fun m => m.up) ∧
    ((∀ m ∈ [mig2, mig1], m.version ≤ currentVersionPure db0) →
      scriptsExecutedOf (run_pending_migrations [mig2, mig1] envAllOk db0).events = []) :=
  C1_amended_applies_in_registry_order [mig2, mig1] envAllOk db0 (by decide)
    (by decide) (by decide)

/-- Claim C3, as frozen, asserts rollback in strictly descending version
order for every registry.  rollback only reverses the insertion-order
filter: with the registry [mig2, mig1] and both versions applied,
rollback(0) rolls back version 1 before version 2, so the rolled-back
sequence [1, 2] is not strictly descending. -/
theorem C3_counterexample :
    rolledBackVersionsOf (rollback [mig2, mig1] envAllOk db12 0).events = [1, 2] ∧
    ¬ List.Chain' (fun a b => b < a)
        (rolledBackVersionsOf (rollback [mig2, mig1] envAllOk db12 0).events) := by
  have he : rolledBackVersionsOf (rollback [mig2, mig1] envAllOk db12 0).events
      = [1, 2] := by decide
  refine ⟨he, ?_⟩
  intro hchain
  rw [he] at hchain
  exact absurd (List.chain'_cons.mp hchain).1 (by decide)

/-- Shared all-success characterisation of rollback's event trace. -/
lemma rollback_allOk_events (mgr : List Migration) (env : Env)
    (db : DbState) (t : Int) (hsel : env.selectOk = true)
    (hdowns : ∀ m ∈ mgr, env.queryOk m.down = true)
    (hdels : ∀ m ∈ mgr, env.deleteOk m.version = true) :
    rolledBackVersionsOf (rollback mgr env db t).events
      = (pending_backward mgr t).map (fun m => m.version) ∧
    scriptsExecutedOf (rollback mgr env db t).events
      = (pending_backward mgr t).map (fun m => m.down) := by
  have hok : ∀ m ∈ pending_backward mgr t,
      env.queryOk m.down = true ∧ env.deleteOk m.version = true := by
    intro m hm
    have hmem := (mem_pending_backward.mp hm).1
    exact ⟨hdowns m hmem, hdels m hmem⟩
  obtain ⟨e1, e2, e3, e4⟩ := rollbackList_allOk env _ hok db
  rw [rollback_eq mgr env db t hsel]
  simp only []
  constructor
  · have hsv : rolledBackVersionsOf (Event.selectVersion ::
        Event.metric "migration_rollback"
          [("from_version", toString (currentVersionPure db)), ("to_version", toString t)]
        :: (rollbackList env db (pending_backward mgr t)).events)
        = rolledBackVersionsOf (rollbackList env db (pending_backward mgr t)).events := by
      simp [rolledBackVersionsOf]
    rw [hsv, e3]
  · have hsv : scriptsExecutedOf (Event.selectVersion ::
        Event.metric "migration_rollback"
          [("from_version", toString (currentVersionPure db)), ("to_version", toString t)]
        :: (rollbackList env db (pending_backward mgr t)).events)
        = scriptsExecutedOf (rollbackList env db (pending_backward mgr t)).events := by
      simp [scriptsExecutedOf]
    rw [hsv, e4]

/-- Claim C3 amended: for every registry contents and target version t,
rollback(t) rolls back exactly the registered migrations whose version is
strictly greater than t, in reverse registry insertion order (not sorted
descending by version). -/
theorem C3_amended_reverse_registry_order (mgr : List Migration) (env : Env)
    (db : DbState) (t : Int) (hsel : env.selectOk = true)
    (hdowns : ∀ m ∈ mgr, env.queryOk m.down = true)
    (hdels : ∀ m ∈ mgr, env.deleteOk m.version = true) :
    rolledBackVersionsOf (rollback mgr env db t).events
      = (pending_backward mgr t).map (fun m => m.version) ∧
    scriptsExecutedOf (rollback mgr env db t).events
      = (pending_backward mgr t).map (fun m => m.down) :=
  rollback_allOk_events mgr env db t hsel hdowns hdels

/-- A closed instance of the amended C3 theorem, at the out-of-order
registry [mig2, mig1] with both versions recorded as applied. -/
theorem C3_amended_witness :
    rolledBackVersionsOf (rollback [mig2, mig1] envAllOk db12 0).events
      = (pending_backward [mig2, mig1] 0).map (fun m => m.version) ∧
    scriptsExecutedOf (rollback [mig2, mig1] envAllOk db12 0).events
      = (pending_backward [mig2, mig1] 0).map (fun m => m.down) :=
  C3_amended_reverse_registry_order [mig2, mig1] envAllOk db12 0 (by decide)
    (by decide) (by decide)

/-- Claim C4, as frozen, asserts a duplicate version is rejected with an
error and the registry left unchanged.  add_migration is an unconditional
push: adding mig1dup (version 1) to the registry [mig1] (already version 1)
changes the registry, and the operation has no error outcome at all. -/
theorem C4_counterexample :
    mig1dup.version = mig1.version ∧ add_migration [mig1] mig1dup ≠ [mig1] := by
  decide

/-- Claim C4 amended: add_migration performs no duplicate-version check: a
migration whose version equals that of an already-registered migration is
appended to the registry all the same, and no error is possible. -/
theorem C4_amended_duplicate_appended (reg : List Migration) (m dup : Migration)
    (hmem : m ∈ reg) (hver : m.version = dup.version) :
    add_migration reg dup = reg ++ [dup] := rfl

/-- A closed instance of the amended C4 theorem: appending the duplicate
mig1dup to the registry [mig1]. -/
theorem C4_amended_witness :
    add_migration [mig1] mig1dup = [mig1] ++ [mig1dup] :=
  C4_amended_duplicate_appended [mig1] mig1 mig1dup (by decide) (by decide)

/-- Claim C2: in any run_pending_migrations or rollback run in which some
step fails (its script fails, or its record write / delete fails), the
operation returns that step's error immediately: the scripts attempted are
exactly those of the fully successful earlier steps plus the failing step's
own script, no later migration in the work list is touched, and the records
written (or deleted) by the earlier steps remain written (or deleted). -/
theorem C2_stops_at_first_failure (env : Env) (db : DbState)
    (hsel : env.selectOk = true) :
    (∀ (mgr pre post : List Migration) (bad : Migration),
      pending_forward mgr (currentVersionPure db) = pre ++ bad :: post →
      (∀ m ∈ pre, env.queryOk m.up = true ∧ env.createOk m.version = true) →
      (apply_migration env db bad).err ≠ none →
      (run_pending_migrations mgr env db).err = (apply_migration env db bad).err ∧
      scriptsExecutedOf (run_pending_migrations mgr env db).events
        = pre.map (fun m => m.up) ++ [bad.up] ∧
      (run_pending_migrations mgr env db).db.records
        = db.records ++ newRecords pre db.clock) ∧
    (∀ (mgr pre post : List Migration) (bad : Migration) (t : Int),
      pending_backward mgr t = pre ++ bad :: post →
      (∀ m ∈ pre, env.queryOk m.down = true ∧ env.deleteOk m.version = true) →
      (rollback_migration env db bad).err ≠ none →
      (rollback mgr env db t).err = (rollback_migration env db bad).err ∧
      scriptsExecutedOf (rollback mgr env db t).events
        = pre.map (fun m => m.down) ++ [bad.down] ∧
      (rollback mgr env db t).db.records = removeVersions db.records pre) := by
  constructor
  · intro mgr pre post bad hdecomp hpre hbad
    obtain ⟨c1, c2, c3⟩ := applyList_stops env bad post pre hpre db hbad
    rw [run_pending_eq mgr env db hsel, hdecomp]
    simp only []
    refine ⟨c1, ?_, c3⟩
    have hsv : scriptsExecutedOf (Event.selectVersion ::
        (applyList env db (pre ++ bad :: post)).events)
        = scriptsExecutedOf (applyList env db (pre ++ bad :: post)).events := by
      simp [scriptsExecutedOf]
    rw [hsv, c2]
  · intro mgr pre post bad t hdecomp hpre hbad
    obtain ⟨c1, c2, c3⟩ := rollbackList_stops env bad post pre hpre db hbad
    rw [rollback_eq mgr env db t hsel, hdecomp]
    simp only []
    refine ⟨c1, ?_, c3⟩
    have hsv : scriptsExecutedOf (Event.selectVersion ::
        Event.metric "migration_rollback"
          [("from_version", toString (currentVersionPure db)), ("to_version", toString t)]
        :: (rollbackList env db (pre ++ bad :: post)).events)
        = scriptsExecutedOf (rollbackList env db (pre ++ bad :: post)).events := by
      simp [scriptsExecutedOf]
    rw [hsv, c2]

/-- A closed instance of C2: in envFail2 exactly the scripts u2 and d2 fail,
so running [mig1, mig2] forward from the empty state stops at mig2 with
mig1's record still written, and rolling back to version 0 stops at mig2
(the first backward step) straight away. -/
theorem C2_witness :
    ((run_pending_migrations [mig1, mig2] envFail2 db0).err
        = (apply_migration envFail2 db0 mig2).err ∧
      scriptsExecutedOf (run_pending_migrations [mig1, mig2] envFail2 db0).events
        = [mig1].map (fun m => m.up) ++ [mig2.up] ∧
      (run_pending_migrations [mig1, mig2] envFail2 db0).db.records
        = db0.records ++ newRecords [mig1] db0.clock) ∧
    ((rollback [mig1, mig2] envFail2 db0 0).err
        = (rollback_migration envFail2 db0 mig2).err ∧
      scriptsExecutedOf (rollback [mig1, mig2] envFail2 db0 0).events
        = ([] : List Migration).map (fun m => m.down) ++ [mig2.down] ∧
      (rollback [mig1, mig2] envFail2 db0 0).db.records
        = removeVersions db0.records []) :=
  ⟨(C2_stops_at_first_failure envFail2 db0 rfl).1 [mig1, mig2] [mig1] [] mig2
      (by decide) (by decide) (by decide),
    (C2_stops_at_first_failure envFail2 db0 rfl).2 [mig1, mig2] [] [mig1] mig2 0
      (by decide) (by decide) (by decide)⟩

/-- Claim C5: when the select statement executes, get_current_version
returns the maximum version among the applied-migration records (a recorded
version that bounds all others), and 0 when the record set is empty; when
the statement cannot be executed it fails with DatabaseError. -/
theorem C5_get_current_version (env : Env) (db : DbState) :
    (env.selectOk = true →
      ∃ v, (get_current_version env db).2 = Except.ok v ∧
        ((db.records = [] ∧ v = 0) ∨
          (v ∈ db.records.map (fun r => r.version) ∧ ∀ r ∈ db.records, r.version ≤ v))) ∧
    (env.selectOk = false →
      (get_current_version env db).2
        = Except.error (MigrationError.DatabaseError (env.errMsg selectQuery))) := by
  constructor
  · intro hsel
    refine ⟨currentVersionPure db, by simp [get_current_version, hsel], ?_⟩
    cases hms : maxRecordVersion db.records with
    | none =>
      left
      have hnil := (maxRecordVersion_eq_none_iff _).mp hms
      exact ⟨hnil, by simp [currentVersionPure, currentOf, hms]⟩
    | some w =>
      right
      obtain ⟨r, hr, hrv⟩ := maxRecordVersion_attained hms
      have hcur : currentVersionPure db = w := by
        simp [currentVersionPure, currentOf, hms]
      constructor
      · rw [hcur, ← hrv]
        exact List.mem_map_of_mem _ hr
      · intro s hs
        have hle := version_le_currentOf hs
        exact hle
  · intro hsel
    simp [get_current_version, hsel]

/-- A closed instance of C5 at the all-success environment and a state with
versions 1 and 2 recorded. -/
theorem C5_witness :
    ∃ v, (get_current_version envAllOk db12).2 = Except.ok v ∧
      ((db12.records = [] ∧ v = 0) ∨
        (v ∈ db12.records.map (fun r => r.version) ∧ ∀ r ∈ db12.records, r.version ≤ v)) :=
  (C5_get_current_version envAllOk db12).1 rfl

/-- Claim C6: apply_migration emits the migration_apply_details metric
tagged with the migration's version and name before its up script is
executed; on script failure it returns MigrationFailed and writes no
record; on success it writes a record carrying version, name, description
and the current timestamp; and on record-write failure after a successful
script it returns DatabaseError with the up script already executed. -/
theorem C6_apply_migration_semantics (env : Env) (db : DbState) (m : Migration) :
    (∃ tl, (apply_migration env db m).events
        = Event.metric "migration_apply_details"
            [("version", toString m.version), ("name", m.name)]
          :: Event.execScript m.up :: tl) ∧
    (env.queryOk m.up = false →
      (apply_migration env db m).err
          = some (MigrationError.MigrationFailed
            ("Failed to apply migration: " ++ env.errMsg m.up)) ∧
      (apply_migration env db m).db = db ∧
      appliedVersionsOf (apply_migration env db m).events = []) ∧
    (env.queryOk m.up = true → env.createOk m.version = true →
      (apply_migration env db m).err = none ∧
      (apply_migration env db m).db.records
        = db.records ++ [⟨m.version, m.name, m.description, db.clock⟩]) ∧
    (env.queryOk m.up = true → env.createOk m.version = false →
      (apply_migration env db m).err
          = some (MigrationError.DatabaseError (env.errMsg createQuery)) ∧
      (apply_migration env db m).db = db ∧
      scriptsExecutedOf (apply_migration env db m).events = [m.up]) := by
  refine ⟨?_, ?_, ?_, ?_⟩
  · by_cases h1 : env.queryOk m.up
    · by_cases h2 : env.createOk m.version
      · exact ⟨[Event.createRecord (appliedRecordOf m db.clock)],
          by rw [apply_migration_ok env db m h1 h2]⟩
      · exact ⟨[], by rw [apply_migration_failCreate env db m h1 (by simpa using h2)]⟩
    · exact ⟨[], by rw [apply_migration_failScript env db m (by simpa using h1)]⟩
  · intro h1
    rw [apply_migration_failScript env db m h1]
    exact ⟨rfl, rfl, by simp [appliedVersionsOf]⟩
  · intro h1 h2
    rw [apply_migration_ok env db m h1 h2]
    exact ⟨rfl, rfl⟩
  · intro h1 h2
    rw [apply_migration_failCreate env db m h1 h2]
    exact ⟨rfl, rfl, by simp [scriptsExecutedOf]⟩

/-- A closed instance of C6 at the all-success environment, the empty state
and mig1. -/
theorem C6_witness :
    (∃ tl, (apply_migration envAllOk db0 mig1).events
        = Event.metric "migration_apply_details"
            [("version", toString mig1.version), ("name", mig1.name)]
          :: Event.execScript mig1.up :: tl) ∧
    (envAllOk.queryOk mig1.up = false →
      (apply_migration envAllOk db0 mig1).err
          = some (MigrationError.MigrationFailed
            ("Failed to apply migration: " ++ envAllOk.errMsg mig1.up)) ∧
      (apply_migration envAllOk db0 mig1).db = db0 ∧
      appliedVersionsOf (apply_migration envAllOk db0 mig1).events = []) ∧
    (envAllOk.queryOk mig1.up = true → envAllOk.createOk mig1.version = true →
      (apply_migration envAllOk db0 mig1).err = none ∧
      (apply_migration envAllOk db0 mig1).db.records
        = db0.records ++ [⟨mig1.version, mig1.name, mig1.description, db0.clock⟩]) ∧
    (envAllOk.queryOk mig1.up = true → envAllOk.createOk mig1.version = false →
      (apply_migration envAllOk db0 mig1).err
          = some (MigrationError.DatabaseError (envAllOk.errMsg createQuery)) ∧
      (apply_migration envAllOk db0 mig1).db = db0 ∧
      scriptsExecutedOf (apply_migration envAllOk db0 mig1).events = [mig1.up]) :=
  C6_apply_migration_semantics envAllOk db0 mig1

/-- Claim C7: if run_pending_migrations completes successfully and the
registry is unchanged, a second call executes zero migration scripts and
succeeds: every registered migration's version is by then at most the
recorded current version, so the filtered work list is empty. -/
theorem C7_second_run_is_noop (mgr : List Migration) (env : Env) (db : DbState)
    (h : (run_pending_migrations mgr env db).err = none) :
    scriptsExecutedOf
        (run_pending_migrations mgr env (run_pending_migrations mgr env db).db).events
      = [] ∧
    (run_pending_migrations mgr env (run_pending_migrations mgr env db).db).err
      = none := by
  have hsel := run_pending_success_select h
  have hdb := run_pending_success_db h
  have hmono := currentVersionPure_le_run_pending h
  have hpend : pending_forward mgr
      (currentVersionPure (run_pending_migrations mgr env db).db) = [] := by
    apply List.filter_eq_nil_iff.mpr
    intro m hm
    have hle : m.version ≤ currentVersionPure (run_pending_migrations mgr env db).db := by
      by_cases hcase : currentVersionPure db < m.version
      · have hmem : m.version ∈
            ((newRecords (pending_forward mgr (currentVersionPure db)) db.clock).map
              (fun r => r.version)) := by
          rw [newRecords_map_version]
          exact List.mem_map_of_mem _ (mem_pending_forward.mpr ⟨hm, hcase⟩)
        obtain ⟨r, hr, hrv⟩ := List.mem_map.mp hmem
        have hrin : r ∈ (run_pending_migrations mgr env db).db.records := by
          rw [hdb]
          exact List.mem_append_right _ hr
        have hver := version_le_currentOf hrin
        exact hrv ▸ hver
      · exact le_trans (not_lt.mp hcase) hmono
    simpa using not_lt.mpr hle
  constructor
  · rw [run_pending_eq mgr env _ hsel, hpend]
    simp [applyList, scriptsExecutedOf]
  · rw [run_pending_eq mgr env _ hsel, hpend]
    simp [applyList]

/-- A closed instance of C7: a successful run over [mig1, mig2] from the
empty state, rerun on the resulting state. -/
theorem C7_witness :
    scriptsExecutedOf
        (run_pending_migrations [mig1, mig2] envAllOk
          (run_pending_migrations [mig1, mig2] envAllOk db0).db).events = [] ∧
    (run_pending_migrations [mig1, mig2] envAllOk
        (run_pending_migrations [mig1, mig2] envAllOk db0).db).err = none :=
  C7_second_run_is_noop [mig1, mig2] envAllOk db0 (by decide)

/-- Claim C8, as frozen, asserts rollback never executes the down script of
a migration whose version exceeds the current version (one with no
applied-migration record).  rollback filters only against the target
version: with registry [mig5] and an empty record set (current version 0),
rollback(0) executes mig5's down script although version 5 was never
applied. -/
theorem C8_counterexample :
    db0.records = [] ∧ currentVersionPure db0 = 0 ∧
    currentVersionPure db0 < mig5.version ∧
    scriptsExecutedOf (rollback [mig5] envAllOk db0 0).events = [mig5.down] := by
  decide

/-- Claim C8 amended: rollback(t) executes the down script of every
registered migration with version strictly greater than t, even one whose
version exceeds the current version and that has no applied-migration
record. -/
theorem C8_amended_rolls_back_unapplied (mgr : List Migration) (env : Env)
    (db : DbState) (t : Int) (m : Migration) (hsel : env.selectOk = true)
    (hdowns : ∀ m' ∈ mgr, env.queryOk m'.down = true)
    (hdels : ∀ m' ∈ mgr, env.deleteOk m'.version = true)
    (hmem : m ∈ mgr) (ht : t < m.version)
    (hcur : currentVersionPure db < m.version)
    (hnorec : ∀ r ∈ db.records, r.version ≠ m.version) :
    m.down ∈ scriptsExecutedOf (rollback mgr env db t).events := by
  have hs := (rollback_allOk_events mgr env db t hsel hdowns hdels).2
  rw [hs]
  exact List.mem_map_of_mem _ (mem_pending_backward.mpr ⟨hmem, ht⟩)

/-- A closed instance of the amended C8 theorem: rollback(0) on registry
[mig5] with an empty record set executes mig5's down script. -/
theorem C8_witness :
    mig5.down ∈ scriptsExecutedOf (rollback [mig5] envAllOk db0 0).events :=
  C8_amended_rolls_back_unapplied [mig5] envAllOk db0 0 mig5 rfl (by decide)
    (by decide) (by decide) (by decide) (by decide) (by decide)

/-- Claim C9: the current version never decreases across a successful
run_pending_migrations call, never increases across a successful rollback
call from a state reachable from the empty record set, is never negative on
reachable states, and is exactly the value a successful
get_current_version call returns. -/
theorem C9_version_monotonicity (mgr : List Migration) (env : Env)
    (db : DbState) (t : Int) :
    ((run_pending_migrations mgr env db).err = none →
      currentVersionPure db ≤ currentVersionPure (run_pending_migrations mgr env db).db) ∧
    (Reachable db → (rollback mgr env db t).err = none →
      currentVersionPure (rollback mgr env db t).db ≤ currentVersionPure db) ∧
    (Reachable db → 0 ≤ currentVersionPure db) ∧
    (env.selectOk = true →
      (get_current_version env db).2 = Except.ok (currentVersionPure db)) := by
  refine ⟨?_, ?_, ?_, ?_⟩
  · exact fun h => currentVersionPure_le_run_pending h
  · exact fun hr h => currentVersionPure_rollback_le (reachable_goodDb hr) h
  · exact fun hr => currentOf_nonneg (reachable_goodDb hr)
  · intro hsel
    simp [get_current_version, hsel]

/-- A closed instance of C9 at the empty (reachable) state db0. -/
theorem C9_witness :
    (currentVersionPure db0 ≤
      currentVersionPure (run_pending_migrations [mig1, mig2] envAllOk db0).db) ∧
    (currentVersionPure (rollback [mig1, mig2] envAllOk db0 0).db
      ≤ currentVersionPure db0) ∧
    (0 ≤ currentVersionPure db0) ∧
    ((get_current_version envAllOk db0).2 = Except.ok (currentVersionPure db0)) :=
  ⟨(C9_version_monotonicity [mig1, mig2] envAllOk db0 0).1 (by decide),
    (C9_version_monotonicity [mig1, mig2] envAllOk db0 0).2.1 (Reachable.init 0) (by decide),
    (C9_version_monotonicity [mig1, mig2] envAllOk db0 0).2.2.1 (Reachable.init 0),
    (C9_version_monotonicity [mig1, mig2] envAllOk db0 0).2.2.2 rfl⟩

/-- Claim C10: every engine operation other than add_migration leaves the
in-memory registry (the list of registered Migration definitions, with all
their fields) unchanged; add_migration alone modifies it, appending exactly
the one given element.  The four state-changing operations act on the
durable state only, mirroring their shared-reference receivers. -/
theorem C10_only_add_modifies_registry (s : ManagerState) (env : Env)
    (m : Migration) (t : Int) :
    (runPendingStep s env).1.migrations = s.migrations ∧
    (rollbackStep s env t).1.migrations = s.migrations ∧
    (applyMigrationStep s env m).1.migrations = s.migrations ∧
    (rollbackMigrationStep s env m).1.migrations = s.migrations ∧
    (getCurrentVersionStep s env).1 = s ∧
    (addMigrationStep s m).migrations = s.migrations ++ [m] ∧
    (addMigrationStep s m).db = s.db :=
  ⟨rfl, rfl, rfl, rfl, rfl, rfl, rfl⟩

end OmniProDB
